import Mathlib

/-!
Verification of the Flipper `.sub` → HackRF `.c16` converter

A shallow embedding of `sdr_converter.py` (the single source file of the
repository) together with theorems settling the frozen claims about its
specification.

Modelling conventions:
* Python strings are Lean `String`s; file contents are the list of lines
  (`List String`), with `none` standing for a file that could not be opened.
* Python `int` is Lean `ℤ` (or `ℕ` where the source value is provably
  non-negative); `int(x)` applied to a non-negative exact quotient is floor
  division.
* Python functions that can raise return `Option`.
* `float` trigonometry (`math.cos`, `math.sin`) is modelled with exact real
  arithmetic (`Real.cos`, `Real.sin`), and Python's truncating `int(...)`
  cast on a real by `truncToZero`.
-/

namespace SdrConverter

/-! Section: Character-list implementations of the Python string operations

The Lean core `String` functions (`trim`, `split`, `toLower`, …) are
implemented with iterators and do not reduce in the kernel, so the Python
string operations are given directly as structural recursions over the
character list of the string. -/

/-- Python `str.strip()` on the character list: drop surrounding whitespace. -/
def stripL (cs : List Char) : List Char :=
  ((cs.dropWhile Char.isWhitespace).reverse.dropWhile Char.isWhitespace).reverse

/-- Python `str.strip()`. -/
def pyStrip (s : String) : String :=
  (stripL s.toList).asString

/-- Does the second list start with the first? (Python `str.startswith`.) -/
def listStartsWith : List Char → List Char → Bool
  | [], _ => true
  | _ :: _, [] => false
  | p :: ps, c :: cs => p == c && listStartsWith ps cs

/-- Python `str.split()` (no separator): whitespace runs separate the tokens,
and no empty tokens are produced. `acc` holds the current token reversed. -/
def splitWsAux : List Char → List Char → List String
  | [], acc => if acc.isEmpty then [] else [acc.reverse.asString]
  | c :: rest, acc =>
    if c.isWhitespace then
      if acc.isEmpty then splitWsAux rest []
      else acc.reverse.asString :: splitWsAux rest []
    else splitWsAux rest (c :: acc)

/-- Python `s.split()`. -/
def pySplit (s : String) : List String :=
  splitWsAux s.toList []

/-! Section: Python `int(s, base)` -/

/-- Is `c` a digit of base `b` (`b` is 10 or 16, as in the source)? -/
def isDigitBase (b : ℕ) (c : Char) : Bool :=
  if b = 16 then
    (('0' ≤ c && c ≤ '9') || ('a' ≤ c && c ≤ 'f') || ('A' ≤ c && c ≤ 'F'))
  else
    ('0' ≤ c && c ≤ '9')

/-- Numeric value of a (decimal or hexadecimal) digit character. -/
def digitVal (c : Char) : ℕ :=
  if 'a' ≤ c && c ≤ 'f' then c.toNat - 'a'.toNat + 10
  else if 'A' ≤ c && c ≤ 'F' then c.toNat - 'A'.toNat + 10
  else c.toNat - '0'.toNat

/-- Digits of base `b` after the first one, allowing a single `_` between two
digits (CPython's integer-literal grammar used by `int(s, base)`). -/
def moreDigits (b : ℕ) (acc : ℕ) : List Char → Option ℕ
  | [] => some acc
  | '_' :: c :: rest =>
      if isDigitBase b c then moreDigits b (acc * b + digitVal c) rest else none
  | c :: rest =>
      if isDigitBase b c then moreDigits b (acc * b + digitVal c) rest else none

/-- A non-empty run of base-`b` digits (no leading underscore). -/
def digitRun (b : ℕ) : List Char → Option ℕ
  | [] => none
  | c :: rest => if isDigitBase b c then moreDigits b (digitVal c) rest else none

/-- Body of a base-16 numeral: an optional `0x`/`0X` marker (which may be
followed by one underscore) and then a digit run. -/
def hexBody : List Char → Option ℕ
  | '0' :: 'x' :: '_' :: rest => digitRun 16 rest
  | '0' :: 'x' :: rest => digitRun 16 rest
  | '0' :: 'X' :: '_' :: rest => digitRun 16 rest
  | '0' :: 'X' :: rest => digitRun 16 rest
  | cs => digitRun 16 cs

/-- Unsigned body of a numeral in base `b` (10 or 16). -/
def numBody (b : ℕ) (cs : List Char) : Option ℕ :=
  if b = 16 then hexBody cs else digitRun b cs

/-- Python `int(s, b)` for `b ∈ {10, 16}`: surrounding whitespace stripped,
optional sign, then the unsigned body; `none` models `ValueError`. -/
def pyInt (b : ℕ) (s : String) : Option ℤ :=
  match stripL s.toList with
  | '-' :: rest => (numBody b rest).map (fun n => -(n : ℤ))
  | '+' :: rest => (numBody b rest).map (fun n => (n : ℤ))
  | cs => (numBody b cs).map (fun n => (n : ℤ))

/-- One data token, as parsed by `parse_sub`: decimal first (`int(value, 10)`),
and on `ValueError` hexadecimal (`int(value, 16)`); `none` is the fatal
"Invalid value in data" outcome. -/
def parseToken (s : String) : Option ℤ :=
  match pyInt 10 s with
  | some v => some v
  | none => pyInt 16 s

/-! Section: `parse_sub` -/

/-- The `SUPPORTED_PROTOCOLS` list from the source. -/
def SUPPORTED_PROTOCOLS : List String :=
  ["RAW", "BinRAW", "CAME", "Holtek_HT12X", "PT2262",
   "FSK", "Keeloq", "RC522", "1-Wire", "DHT"]

/-- The parsed record: the header dictionary (`info`, in insertion order,
keys lower-cased) and the integer data chunks (`info['chunks']`). -/
structure SubInfo where
  headers : List (String × String)
  chunks : List (List ℤ)
deriving Repr, DecidableEq

/-- Python `dict` lookup on the insertion-ordered association list: a later
binding for the same key overwrites an earlier one, so the last match wins. -/
def dictGet (hs : List (String × String)) (k : String) : Option String :=
  (hs.reverse.find? (fun p => p.1 = k)).map (fun p => p.2)

/-- The line loop of `parse_sub`: strip each line, skip empty lines; a line
starting with `RAW_Data:` opens the data section and contributes its stripped
remainder; once data has started every line is a data line; otherwise a line
with a colon is a `key:value` header (key lower-cased, value stripped) and a
line without one is ignored. Returns (headers, data lines), in file order. -/
def scanLines : Bool → List String → List (String × String) × List String
  | _, [] => ([], [])
  | started, l :: rest =>
    let line := pyStrip l
    if line = "" then scanLines started rest
    else if listStartsWith "RAW_Data:".toList line.toList then
      let r := scanLines true rest
      (r.1, pyStrip ((line.toList.drop 9).asString) :: r.2)
    else if started then
      let r := scanLines true rest
      (r.1, line :: r.2)
    else if line.toList.contains ':' then
      let k := ((line.toList.takeWhile (fun c => c ≠ ':')).map Char.toLower).asString
      let v := pyStrip (((line.toList.dropWhile (fun c => c ≠ ':')).drop 1).asString)
      let r := scanLines false rest
      ((k, v) :: r.1, r.2)
    else scanLines started rest

/-- The check `info.get('protocol') not in SUPPORTED_PROTOCOLS` fails the parse; this is
the succeeding side of that test. -/
def protocolOk (hs : List (String × String)) : Bool :=
  match dictGet hs "protocol" with
  | some p => SUPPORTED_PROTOCOLS.contains p
  | none => false

/-- Parse every token of one data line; any invalid token aborts the parse. -/
def parseTokens : List String → Option (List ℤ)
  | [] => some []
  | t :: ts => do
    let v ← parseToken t
    let vs ← parseTokens ts
    pure (v :: vs)

/-- The chunk loop of `parse_sub`: each non-empty data line becomes one chunk
of parsed tokens; empty data lines are skipped; an invalid token is fatal. -/
def parseChunks : List String → Option (List (List ℤ))
  | [] => some []
  | l :: rest =>
    if l = "" then parseChunks rest
    else do
      let chunk ← parseTokens (pySplit (pyStrip l))
      let cs ← parseChunks rest
      pure (chunk :: cs)

/-- The function `parse_sub`: `none` is the source's `return None` (unreadable file —
modelled by the `none` argument —, unsupported or missing protocol, or an
invalid data token). -/
def parse_sub (contents : Option (List String)) : Option SubInfo :=
  match contents with
  | none => none
  | some lines =>
    let r := scanLines false lines
    if protocolOk r.1 then
      (parseChunks r.2).map (fun cs => ⟨r.1, cs⟩)
    else none

/-! Section: Protocol branches of `process_file` -/

/-- Binary digits of `n` (most significant first), as Python `format(n, 'b')`
produces for a non-negative value. -/
def natBinString (n : ℕ) : String :=
  (Nat.toDigits 2 n).asString

/-- Python `format(v, '0Nb')` with `N = width`: the binary magnitude, a `-`
sign for a negative value, zero-padded after the sign to total width. -/
def pyFormatBin (width : ℕ) (v : ℤ) : String :=
  let body := natBinString v.natAbs
  if v < 0 then
    "-" ++ (List.replicate (width - 1 - body.length) '0').asString ++ body
  else
    (List.replicate (width - body.length) '0').asString ++ body

/-- The function `process_raw`: flatten all chunks, unchanged. -/
def process_raw (info : SubInfo) : List ℤ :=
  info.chunks.flatten

/-- The function `process_binraw`: each flattened value is replaced by its `'08b'`
formatted string. (`process_came`, `process_pt2262`, `process_fsk`,
`process_keeloq`, `process_rc522`, `process_one_wire` and `process_dht`
have the identical body.) -/
def process_binraw (info : SubInfo) : List String :=
  info.chunks.flatten.map (pyFormatBin 8)

/-- The function `process_holtek`: like `process_binraw` but with width-12 format
(`'012b'`). -/
def process_holtek (info : SubInfo) : List String :=
  info.chunks.flatten.map (pyFormatBin 12)

/-- A Python value held by the `chunks` variable of `process_file` after the
protocol dispatch: an `int` duration, or a formatted binary `str` produced by
the non-RAW branches. -/
inductive ChunkVal where
  | int (v : ℤ)
  | str (s : String)
deriving Repr, DecidableEq

/-- The protocol dispatch of `process_file` (lines 256-277): `chunks` starts
as the flattened integer list and is then reassigned by the branch matching
the declared protocol — to integers for `RAW`, to formatted strings for every
other supported protocol. -/
def classify (info : SubInfo) : List ChunkVal :=
  let p := dictGet info.headers "protocol"
  if p = some "RAW" then (process_raw info).map ChunkVal.int
  else if p = some "BinRAW" then (process_binraw info).map ChunkVal.str
  else if p = some "CAME" then (process_binraw info).map ChunkVal.str
  else if p = some "Holtek_HT12X" then (process_holtek info).map ChunkVal.str
  else if p = some "PT2262" then (process_binraw info).map ChunkVal.str
  else if p = some "FSK" then (process_binraw info).map ChunkVal.str
  else if p = some "Keeloq" then (process_binraw info).map ChunkVal.str
  else if p = some "RC522" then (process_binraw info).map ChunkVal.str
  else if p = some "1-Wire" then (process_binraw info).map ChunkVal.str
  else if p = some "DHT" then (process_binraw info).map ChunkVal.str
  else (info.chunks.flatten).map ChunkVal.int

/-! Section: Waveform synthesis -/

/-- Python's `int(...)` cast of a real: truncation toward zero. -/
noncomputable def truncToZero (x : ℝ) : ℤ :=
  if 0 ≤ x then ⌊x⌋ else ⌈x⌉

/-- The function `us_to_sin`. `duration` is the (non-negative) magnitude passed as
`abs(duration)` by the caller; `iterations = int(sampling_rate * duration /
1_000_000)` is floor division since both operands are non-negative. -/
noncomputable def us_to_sin (level : Bool) (duration sampling_rate : ℕ)
    (intermediate_freq : ℤ) (amplitude : ℕ) : List (ℤ × ℤ) :=
  let iterations := sampling_rate * duration / 1000000
  if iterations = 0 then []
  else
    let data_step_per_sample : ℝ := 2 * Real.pi * intermediate_freq / sampling_rate
    let max_amplitude : ℕ := 32767 * amplitude / 100
    if level then
      (List.range iterations).map (fun (i : ℕ) =>
        (truncToZero (Real.cos ((i : ℝ) * data_step_per_sample) * max_amplitude),
         truncToZero (Real.sin ((i : ℝ) * data_step_per_sample) * max_amplitude)))
    else
      List.replicate iterations (0, 0)

/-- The function `durations_to_bin_sequence` on a list of integer durations: concatenate
`us_to_sin(duration > 0, abs(duration), ...)` over the durations. -/
noncomputable def durations_to_bin_sequence (durations : List ℤ)
    (sampling_rate : ℕ) (intermediate_freq : ℤ) (amplitude : ℕ) : List (ℤ × ℤ) :=
  durations.flatMap (fun d =>
    us_to_sin (decide (0 < d)) d.natAbs sampling_rate intermediate_freq amplitude)

/-- The call `durations_to_bin_sequence(chunks, ...)` made by `process_file`
on the dynamically-typed `chunks` value: if any element is a `str` (every
non-RAW branch with non-empty data), `duration > 0` raises `TypeError` and no
sequence is produced (`none`); otherwise the integer durations are
synthesized. -/
noncomputable def synthesizeClassified (cvs : List ChunkVal) (sampling_rate : ℕ)
    (intermediate_freq : ℤ) (amplitude : ℕ) : Option (List (ℤ × ℤ)) :=
  if cvs.all (fun cv => match cv with | .int _ => true | .str _ => false) then
    some (durations_to_bin_sequence
      (cvs.filterMap (fun cv => match cv with | .int v => some v | .str _ => none))
      sampling_rate intermediate_freq amplitude)
  else none

/-! Section: Serialization and output -/

/-- The two bytes (little-endian) of a value stored as `np.int16`: the value
wraps modulo 2^16 and is laid out low byte first. -/
def int16leBytes (v : ℤ) : List ℕ :=
  let u := (v % 65536).toNat
  [u % 256, u / 256]

/-- The function `sequence_to_16le_buffer`: `np.array(sequence, dtype=np.int16)` is an
N×2 matrix of the samples, `.flatten()` lays it out row-major
(I0, Q0, I1, Q1, …) and `.tobytes()` emits each entry as two little-endian
bytes. The buffer is modelled as its list of byte values. -/
def sequence_to_16le_buffer (sequence : List (ℤ × ℤ)) : List ℕ :=
  sequence.flatMap (fun p => int16leBytes p.1 ++ int16leBytes p.2)

/-- The signed 16-bit value denoted by a two-byte little-endian block. -/
def decode_int16le (b : List ℕ) : ℤ :=
  let u : ℕ := b.getD 0 0 % 256 + 256 * (b.getD 1 0 % 256)
  if u < 32768 then (u : ℤ) else (u : ℤ) - 65536

/-- Reduction of an integer into the signed 16-bit range, as `np.int16` does. -/
def wrap16 (v : ℤ) : ℤ :=
  (v + 32768) % 65536 - 32768

/-- The function `generate_meta_string`: the two-line `key=value` sidecar text. -/
def generate_meta_string (frequency : String) (sampling_rate : ℕ) : String :=
  "sample_rate=" ++ toString sampling_rate ++ "\n" ++ "center_frequency=" ++ frequency

/-- Content of a file left on disk by `write_hrf_file`. -/
inductive FileContent where
  | bin (bytes : List ℕ)
  | text (s : String)
deriving Repr, DecidableEq

/-- The function `write_hrf_file`: opens `file.c16` and writes the buffer, then opens
`file.txt` and writes the metadata; on any exception it returns `[]`,
otherwise the two paths. `c16Ok`/`txtOk` model whether each write raises.
The result is (files left on disk as path-content pairs, returned paths);
there is no temporary path and no rename — each write goes directly to the
final path, so a failing second write leaves the finished `.c16` behind. -/
def write_hrf_file (file : String) (buffer : List ℕ) (frequency : String)
    (sampling_rate : ℕ) (c16Ok txtOk : Bool) :
    List (String × FileContent) × List String :=
  let paths := [file ++ ".c16", file ++ ".txt"]
  if c16Ok then
    if txtOk then
      ([(file ++ ".c16", FileContent.bin buffer),
        (file ++ ".txt", FileContent.text (generate_meta_string frequency sampling_rate))],
       paths)
    else
      ([(file ++ ".c16", FileContent.bin buffer)], [])
  else ([], [])

/-! Section: `process_file` -/

/-- The string `process_file` converts to obtain the frequency:
`info.get('frequency', '418000000')`. -/
def frequencyString (info : SubInfo) : String :=
  (dictGet info.headers "frequency").getD "418000000"

/-- The frequency string passed to `write_hrf_file` for the sidecar:
`info.get('frequency', 'unknown')`. -/
def metaFrequency (info : SubInfo) : String :=
  (dictGet info.headers "frequency").getD "unknown"

/-- The value `intermediate_freq = min(int(info.get('frequency', '418000000')) // 100,
5000)`; `none` models the `ValueError` crash when the header value is not a
valid decimal integer (Python `//` is floor division, `Int.fdiv`). -/
def intermediateFreq (info : SubInfo) : Option ℤ :=
  (pyInt 10 (frequencyString info)).map (fun f => min (Int.fdiv f 100) 5000)

/-- The function `process_file` up to the file writes: parse, dispatch on the protocol,
synthesize with `sampling_rate = 500000` and `amplitude = 100`, and serialize.
`none` models every path on which no output is produced (parse failure, a
frequency `ValueError`, or the `TypeError` from string chunks); `some` carries
the `.c16` byte buffer and the `.txt` sidecar text. -/
noncomputable def process_file (contents : Option (List String)) :
    Option (List ℕ × String) :=
  match parse_sub contents with
  | none => none
  | some info =>
    let chunks := classify info
    let sampling_rate := 500000
    match intermediateFreq info with
    | none => none
    | some ifreq =>
      match synthesizeClassified chunks sampling_rate ifreq 100 with
      | none => none
      | some seq =>
        some (sequence_to_16le_buffer seq,
              generate_meta_string (metaFrequency info) sampling_rate)

/-! Section: Synthesis lemmas -/

/-- The function `us_to_sin` produces exactly `⌊sampling_rate * duration / 10^6⌋` samples,
on every branch. -/
theorem us_to_sin_length (level : Bool) (duration sampling_rate : ℕ)
    (ifreq : ℤ) (amp : ℕ) :
    (us_to_sin level duration sampling_rate ifreq amp).length =
      sampling_rate * duration / 1000000 := by
  unfold us_to_sin
  by_cases h : sampling_rate * duration / 1000000 = 0
  · simp [h]
  · cases level <;> simp [h]

/-- Truncation toward zero never grows the magnitude. -/
theorem abs_truncToZero_le (x : ℝ) : |((truncToZero x : ℤ) : ℝ)| ≤ |x| := by
  unfold truncToZero
  by_cases h : 0 ≤ x
  · rw [if_pos h, abs_of_nonneg h,
      abs_of_nonneg (by exact_mod_cast Int.floor_nonneg.mpr h)]
    exact Int.floor_le x
  · push_neg at h
    have hc : ⌈x⌉ ≤ 0 := Int.ceil_le.mpr (by exact_mod_cast h.le)
    rw [if_neg (not_le.mpr h), abs_of_neg h, abs_of_nonpos (by exact_mod_cast hc)]
    simpa using neg_le_neg (Int.le_ceil x)

/-- Integer form of the truncation bound. -/
theorem abs_truncToZero_le_int (x : ℝ) (C : ℤ) (h : |x| ≤ (C : ℝ)) :
    |truncToZero x| ≤ C := by
  have h1 : |((truncToZero x : ℤ) : ℝ)| ≤ (C : ℝ) := (abs_truncToZero_le x).trans h
  exact_mod_cast h1

/-- C1: for every signed duration `d`, positive `sampling_rate` and arbitrary
`intermediate_freq` and `amplitude`, the synthesizer contributes exactly
`⌊sampling_rate * |d| / 10^6⌋` quadrature samples for `d`, independent of the
sign of `d` (a floor of 0 yields no samples and no error). -/
theorem samples_per_duration (d : ℤ) (sampling_rate : ℕ) (ifreq : ℤ)
    (amp : ℕ) (_hsr : 0 < sampling_rate) :
    (durations_to_bin_sequence [d] sampling_rate ifreq amp).length =
      sampling_rate * d.natAbs / 1000000 ∧
    (durations_to_bin_sequence [d] sampling_rate ifreq amp).length =
      (durations_to_bin_sequence [-d] sampling_rate ifreq amp).length := by
  simp [durations_to_bin_sequence, us_to_sin_length]

/-- C1 witness: a concrete instantiation (`d = -200`, 500 kHz). -/
theorem samples_per_duration_witness :
    (durations_to_bin_sequence [(-200 : ℤ)] 500000 5000 100).length =
      500000 * (-200 : ℤ).natAbs / 1000000 :=
  (samples_per_duration (-200) 500000 5000 100 (by norm_num)).1

/-- C5: every sample appended for a negative (carrier-off) duration is the
zero pair. -/
theorem off_samples_zero (d : ℤ) (sampling_rate : ℕ) (ifreq : ℤ) (amp : ℕ)
    (hd : d < 0) :
    ∀ p ∈ durations_to_bin_sequence [d] sampling_rate ifreq amp,
      p = ((0 : ℤ), (0 : ℤ)) := by
  intro p hp
  have hlev : ¬ (0 < d) := by omega
  simp [durations_to_bin_sequence, us_to_sin, hlev] at hp
  rcases hp with ⟨-, hp⟩
  exact hp

/-- C5 witness: `(0, 0)` is among the samples of duration `-10` and the
theorem applies to it. -/
theorem off_samples_zero_witness :
    ((0 : ℤ), (0 : ℤ)) ∈ durations_to_bin_sequence [(-10 : ℤ)] 500000 5000 100 ∧
    ((0 : ℤ), (0 : ℤ)) = ((0 : ℤ), (0 : ℤ)) := by
  have hm : ((0 : ℤ), (0 : ℤ)) ∈ durations_to_bin_sequence [(-10 : ℤ)] 500000 5000 100 := by
    simp [durations_to_bin_sequence, us_to_sin]
  exact ⟨hm, off_samples_zero (-10) 500000 5000 100 (by norm_num) _ hm⟩

/-- Multiplying by `cos` of anything never grows a non-negative magnitude. -/
theorem abs_cos_mul_le (x : ℝ) (m : ℕ) : |Real.cos x * (m : ℝ)| ≤ (m : ℝ) := by
  rw [abs_mul, abs_of_nonneg (by positivity : (0 : ℝ) ≤ (m : ℝ))]
  exact mul_le_of_le_one_left (by positivity) (Real.abs_cos_le_one x)

/-- Multiplying by `sin` of anything never grows a non-negative magnitude. -/
theorem abs_sin_mul_le (x : ℝ) (m : ℕ) : |Real.sin x * (m : ℝ)| ≤ (m : ℝ) := by
  rw [abs_mul, abs_of_nonneg (by positivity : (0 : ℝ) ≤ (m : ℝ))]
  exact mul_le_of_le_one_left (by positivity) (Real.abs_sin_le_one x)

/-- Every component of every `us_to_sin` sample is bounded by the computed
`max_amplitude = ⌊32767 · amplitude / 100⌋`. -/
theorem us_to_sin_component_bound (level : Bool) (duration sampling_rate : ℕ)
    (ifreq : ℤ) (amp : ℕ) :
    ∀ p ∈ us_to_sin level duration sampling_rate ifreq amp,
      |p.1| ≤ ((32767 * amp / 100 : ℕ) : ℤ) ∧ |p.2| ≤ ((32767 * amp / 100 : ℕ) : ℤ) := by
  intro p hp
  unfold us_to_sin at hp
  by_cases h0 : sampling_rate * duration / 1000000 = 0
  · simp [h0] at hp
  · cases level
    · simp [h0] at hp
      subst hp
      simp only [Prod.fst_zero, Prod.snd_zero, abs_zero]
      exact ⟨Int.natCast_nonneg _, Int.natCast_nonneg _⟩
    · simp [h0] at hp
      obtain ⟨i, -, hp⟩ := hp
      rw [← hp]
      constructor
      · exact abs_truncToZero_le_int _ _ (by exact_mod_cast abs_cos_mul_le _ _)
      · exact abs_truncToZero_le_int _ _ (by exact_mod_cast abs_sin_mul_le _ _)

/-- C4: at `amplitude = 100` every synthesized component has magnitude at most
32767; at `amplitude = 0` every sample is `(0, 0)` even for carrier-on
durations; and the integer cast truncates toward zero (it never grows the
magnitude of the trigonometric value). -/
theorem amplitude_bounds (durations : List ℤ) (sampling_rate : ℕ) (ifreq : ℤ) :
    (∀ p ∈ durations_to_bin_sequence durations sampling_rate ifreq 100,
        |p.1| ≤ 32767 ∧ |p.2| ≤ 32767) ∧
    (∀ p ∈ durations_to_bin_sequence durations sampling_rate ifreq 0,
        p = ((0 : ℤ), (0 : ℤ))) ∧
    (∀ x : ℝ, |((truncToZero x : ℤ) : ℝ)| ≤ |x|) := by
  refine ⟨?_, ?_, abs_truncToZero_le⟩
  · intro p hp
    simp only [durations_to_bin_sequence, List.mem_flatMap] at hp
    obtain ⟨d, -, hp⟩ := hp
    have h := us_to_sin_component_bound _ _ _ _ _ p hp
    norm_num at h
    exact h
  · intro p hp
    simp only [durations_to_bin_sequence, List.mem_flatMap] at hp
    obtain ⟨d, -, hp⟩ := hp
    have h := us_to_sin_component_bound _ _ _ _ _ p hp
    norm_num at h
    obtain ⟨h1, h2⟩ := h
    have e1 : p.1 = 0 := by omega
    have e2 : p.2 = 0 := by omega
    rw [Prod.ext_iff]
    exact ⟨e1, e2⟩

/-- C4 witness: the carrier-off sample `(0, 0)` of duration `-10` satisfies
both bounds, and at amplitude 0 it is the zero pair. -/
theorem amplitude_bounds_witness :
    ((0 : ℤ), (0 : ℤ)) ∈ durations_to_bin_sequence [(-10 : ℤ)] 500000 5000 100 ∧
    |((0 : ℤ), (0 : ℤ)).1| ≤ 32767 ∧ |((0 : ℤ), (0 : ℤ)).2| ≤ 32767 := by
  have hm : ((0 : ℤ), (0 : ℤ)) ∈ durations_to_bin_sequence [(-10 : ℤ)] 500000 5000 100 := by
    simp [durations_to_bin_sequence, us_to_sin]
  exact ⟨hm, (amplitude_bounds [(-10 : ℤ)] 500000 5000).1 _ hm⟩

/-! Section: Token parsing (C7) -/

/-- C7: each data token is parsed as decimal first; on failure it is
reinterpreted as hexadecimal; a token matching neither base is a fatal parse
failure. In particular `"1F"` parses to 31 (hex), `"31"` to 31 (decimal), and
`"1G"` fails. -/
theorem token_parsing_fallback :
    parseToken "1F" = some 31 ∧ parseToken "31" = some 31 ∧ parseToken "1G" = none ∧
    (∀ s v, pyInt 10 s = some v → parseToken s = some v) ∧
    (∀ s, pyInt 10 s = none → parseToken s = pyInt 16 s) := by
  refine ⟨by decide, by decide, by decide, ?_, ?_⟩
  · intro s v h
    unfold parseToken
    rw [h]
  · intro s h
    unfold parseToken
    rw [h]

/-- C7 witness: the fallback conjuncts at concrete tokens. -/
theorem token_parsing_fallback_witness :
    parseToken "99" = some 99 ∧ parseToken "0xA" = pyInt 16 "0xA" :=
  ⟨token_parsing_fallback.2.2.2.1 "99" 99 (by decide),
   token_parsing_fallback.2.2.2.2 "0xA" (by decide)⟩

/-! Section: Parse failures (C6) -/

/-- All whitespace-separated tokens of the non-empty data lines, in order. -/
def dataTokens : List String → List String
  | [] => []
  | l :: rest => if l = "" then dataTokens rest else pySplit (pyStrip l) ++ dataTokens rest

/-- An unparseable token anywhere in a token list is fatal. -/
theorem parseTokens_eq_none {t : String} (ts : List String) (ht : t ∈ ts)
    (h : parseToken t = none) : parseTokens ts = none := by
  induction ts with
  | nil => simp at ht
  | cons a as ih =>
    rcases List.mem_cons.mp ht with rfl | hmem
    · simp [parseTokens, h]
    · unfold parseTokens
      cases ha : parseToken a
      · simp
      · simp [ha, ih hmem]

/-- An unparseable token on any data line is fatal to the chunk parse. -/
theorem parseChunks_eq_none {t : String} (ds : List String)
    (ht : t ∈ dataTokens ds) (h : parseToken t = none) :
    parseChunks ds = none := by
  induction ds with
  | nil => simp [dataTokens] at ht
  | cons l rest ih =>
    unfold parseChunks
    by_cases hl : l = ""
    · simp only [dataTokens, if_pos hl] at ht
      simp [hl, ih ht]
    · simp only [dataTokens, if_neg hl, List.mem_append] at ht
      rcases ht with hmem | hmem
      · simp [hl, parseTokens_eq_none _ hmem h]
      · simp only [if_neg hl]
        cases hc : parseTokens (pySplit (pyStrip l))
        · simp [hc]
        · simp [hc, ih hmem]

/-- C6: parsing fails — and the pipeline produces no output — when the file
cannot be read, when the declared protocol is absent or unsupported, or when
some data token parses in neither base. -/
theorem parse_failure_modes (lines : List String) (t : String) :
    (parse_sub none = none ∧ process_file none = none) ∧
    (protocolOk (scanLines false lines).1 = false →
        parse_sub (some lines) = none ∧ process_file (some lines) = none) ∧
    (t ∈ dataTokens (scanLines false lines).2 → parseToken t = none →
        parse_sub (some lines) = none ∧ process_file (some lines) = none) := by
  refine ⟨⟨rfl, rfl⟩, ?_, ?_⟩
  · intro hproto
    have hps : parse_sub (some lines) = none := by
      unfold parse_sub
      simp [hproto]
    exact ⟨hps, by simp [process_file, hps]⟩
  · intro hmem htok
    have hps : parse_sub (some lines) = none := by
      unfold parse_sub
      simp [parseChunks_eq_none _ hmem htok]
    exact ⟨hps, by simp [process_file, hps]⟩

/-- C6 witness: a `protocol: XYZ` header is rejected, and so is a `1G` data
token under a supported protocol; neither input produces output. -/
theorem parse_failure_modes_witness :
    (parse_sub (some ["Protocol: XYZ", "RAW_Data: 1"]) = none ∧
      process_file (some ["Protocol: XYZ", "RAW_Data: 1"]) = none) ∧
    (parse_sub (some ["Protocol: RAW", "RAW_Data: 1G"]) = none ∧
      process_file (some ["Protocol: RAW", "RAW_Data: 1G"]) = none) :=
  ⟨(parse_failure_modes ["Protocol: XYZ", "RAW_Data: 1"] "1").2.1 (by decide),
   (parse_failure_modes ["Protocol: RAW", "RAW_Data: 1G"] "1G").2.2
     (by decide) (by decide)⟩

/-! Section: Serialization format (C8) -/

/-- Every sample contributes exactly 4 bytes to the buffer. -/
theorem sequence_to_16le_buffer_length (sequence : List (ℤ × ℤ)) :
    (sequence_to_16le_buffer sequence).length = 4 * sequence.length := by
  induction sequence with
  | nil => rfl
  | cons a as ih =>
    rw [show sequence_to_16le_buffer (a :: as) =
          (int16leBytes a.1 ++ int16leBytes a.2) ++ sequence_to_16le_buffer as from rfl,
        List.length_append, ih,
        show (int16leBytes a.1 ++ int16leBytes a.2).length = 4 from rfl]
    simp only [List.length_cons]
    omega

/-- The `i`-th 4-byte block of the buffer is the little-endian encoding of the
`i`-th sample, in the order I then Q. -/
theorem sequence_to_16le_buffer_block (sequence : List (ℤ × ℤ)) :
    ∀ i (h : i < sequence.length),
      ((sequence_to_16le_buffer sequence).drop (4 * i)).take 4 =
        int16leBytes (sequence.get ⟨i, h⟩).1 ++ int16leBytes (sequence.get ⟨i, h⟩).2 := by
  induction sequence with
  | nil => intro i h; simp at h
  | cons a as ih =>
    intro i h
    cases i with
    | zero =>
      simp only [Nat.mul_zero, List.drop_zero, sequence_to_16le_buffer,
        List.flatMap_cons, List.get]
      rw [List.take_append_of_le_length (by simp [int16leBytes])]
      simp [int16leBytes]
    | succ j =>
      have hj : j < as.length := by simpa using h
      have harith : 4 * (j + 1) = (int16leBytes a.1 ++ int16leBytes a.2).length + 4 * j := by
        rw [show (int16leBytes a.1 ++ int16leBytes a.2).length = 4 from rfl]
        ring
      rw [show sequence_to_16le_buffer (a :: as) =
            (int16leBytes a.1 ++ int16leBytes a.2) ++ sequence_to_16le_buffer as from rfl,
          harith, List.drop_append,
          show ((a :: as).get ⟨j + 1, h⟩) = as.get ⟨j, hj⟩ from rfl]
      exact ih j hj

/-- Recovering the stored value from its bytes. -/
theorem decode_int16le_int16leBytes (v : ℤ) :
    decode_int16le (int16leBytes v) = wrap16 v := by
  unfold decode_int16le int16leBytes wrap16
  have h0 : 0 ≤ v % 65536 := Int.emod_nonneg v (by norm_num)
  have h1 : v % 65536 < 65536 := Int.emod_lt_of_pos v (by norm_num)
  have hc : ((v % 65536).toNat : ℤ) = v % 65536 := Int.toNat_of_nonneg h0
  simp only [List.getD_cons_zero, List.getD_cons_succ]
  split <;> omega

/-- C8: the buffer is exactly `4 × N` bytes — the samples flattened in order
`(I0, Q0, I1, Q1, …)`, each component as a signed 16-bit little-endian
integer, with no header, framing or length prefix; values already in the
signed 16-bit range are stored exactly. -/
theorem serialization_format (sequence : List (ℤ × ℤ)) (v : ℤ) :
    (sequence_to_16le_buffer sequence).length = 4 * sequence.length ∧
    (∀ i (h : i < sequence.length),
        ((sequence_to_16le_buffer sequence).drop (4 * i)).take 4 =
          int16leBytes (sequence.get ⟨i, h⟩).1 ++ int16leBytes (sequence.get ⟨i, h⟩).2) ∧
    decode_int16le (int16leBytes v) = wrap16 v ∧
    (-32768 ≤ v → v < 32768 → wrap16 v = v) := by
  refine ⟨sequence_to_16le_buffer_length sequence,
    sequence_to_16le_buffer_block sequence,
    decode_int16le_int16leBytes v, ?_⟩
  intro hlo hhi
  unfold wrap16
  omega

/-- C8 witness: the first block of a one-sample buffer, and exact storage of
an in-range value. -/
theorem serialization_format_witness :
    ((sequence_to_16le_buffer [((1 : ℤ), (2 : ℤ))]).drop (4 * 0)).take 4 =
      int16leBytes 1 ++ int16leBytes 2 ∧ wrap16 (-5 : ℤ) = -5 := by
  constructor
  · have hb := (serialization_format [((1 : ℤ), (2 : ℤ))] (-5)).2.1 0 (by norm_num)
    simpa using hb
  · exact (serialization_format [((1 : ℤ), (2 : ℤ))] (-5)).2.2.2 (by norm_num) (by norm_num)

/-! Section: Non-RAW protocols feed format strings to synthesis (C2) -/

/-- A minimal BinRAW capture: one data value 5. -/
def binrawLines : List String := ["Protocol: BinRAW", "RAW_Data: 5"]

/-- The record `parse_sub` produces for `binrawLines`. -/
def binrawInfo : SubInfo := ⟨[("protocol", "BinRAW")], [[5]]⟩

/-- C2 fails on the code: for a BinRAW capture with data value 5 the protocol
dispatch reassigns `chunks` to the formatted string list `["00000101"]`, which
is *not* the numeric list `[5]` the RAW branch would feed, and that string
list is what reaches `durations_to_bin_sequence`, where `duration > 0` on a
`str` raises `TypeError` — so no sample sequence and no output are produced at
all. -/
theorem binraw_feeds_strings_to_synthesis :
    parse_sub (some binrawLines) = some binrawInfo ∧
    classify binrawInfo = [ChunkVal.str "00000101"] ∧
    process_raw binrawInfo = [5] ∧
    classify binrawInfo ≠ (process_raw binrawInfo).map ChunkVal.int ∧
    synthesizeClassified (classify binrawInfo) 500000 5000 100 = none ∧
    process_file (some binrawLines) = none := by
  have h1 : parse_sub (some binrawLines) = some binrawInfo := by decide
  have h2 : classify binrawInfo = [ChunkVal.str "00000101"] := by decide
  have h3 : intermediateFreq binrawInfo = some 5000 := by decide
  have h4 : synthesizeClassified (classify binrawInfo) 500000 5000 100 = none := by
    rw [h2]
    simp [synthesizeClassified]
  refine ⟨h1, h2, by decide, by decide, h4, ?_⟩
  simp [process_file, h1, h3, h4]

/-! Section: Output writing is not atomic (C9) -/

/-- C9 counterexample: with the `.c16` write succeeding and the `.txt` write
failing, `write_hrf_file` reports failure (returns no paths) yet the fully
written `.c16` file remains at its final path — it was written directly there,
not to a temporary path renamed on success. -/
theorem write_not_atomic :
    (write_hrf_file "out" [1, 2, 3, 4] "433920000" 500000 true false).2 = [] ∧
    (write_hrf_file "out" [1, 2, 3, 4] "433920000" 500000 true false).1 =
      [("out" ++ ".c16", FileContent.bin [1, 2, 3, 4])] := by
  exact ⟨rfl, rfl⟩

/-- C9 amended: a non-empty path list is returned iff both writes succeeded,
in which case both final files hold the full artifacts; every file ever
written lives directly at a final path (no temporary path exists in the
model); but a `.txt` failure still leaves the finished `.c16` behind. -/
theorem write_hrf_file_behavior (file : String) (buffer : List ℕ)
    (frequency : String) (sampling_rate : ℕ) (c16Ok txtOk : Bool) :
    ((write_hrf_file file buffer frequency sampling_rate c16Ok txtOk).2 ≠ [] ↔
       c16Ok = true ∧ txtOk = true) ∧
    ((write_hrf_file file buffer frequency sampling_rate c16Ok txtOk).2 ≠ [] →
       (write_hrf_file file buffer frequency sampling_rate c16Ok txtOk).1 =
         [(file ++ ".c16", FileContent.bin buffer),
          (file ++ ".txt", FileContent.text (generate_meta_string frequency sampling_rate))]) ∧
    (∀ p ∈ (write_hrf_file file buffer frequency sampling_rate c16Ok txtOk).1,
       p.1 = file ++ ".c16" ∨ p.1 = file ++ ".txt") := by
  cases c16Ok <;> cases txtOk <;> simp [write_hrf_file]

/-- C9 amended witness: the success case at concrete arguments, and the
final-path fact for the file it wrote. -/
theorem write_hrf_file_behavior_witness :
    (write_hrf_file "out" [7] "f" 500000 true true).1 =
      [("out" ++ ".c16", FileContent.bin [7]),
       ("out" ++ ".txt", FileContent.text (generate_meta_string "f" 500000))] ∧
    (("out" ++ ".c16", FileContent.bin [7]).1 = "out" ++ ".c16" ∨
      ("out" ++ ".c16", FileContent.bin [7]).1 = "out" ++ ".txt") :=
  ⟨(write_hrf_file_behavior "out" [7] "f" 500000 true true).2.1 (by decide),
   (write_hrf_file_behavior "out" [7] "f" 500000 true true).2.2 _ (by decide)⟩

/-! Section: Default frequency and intermediate-frequency cap (C10) -/

/-- C10: with no `frequency` header the synthesis proceeds from the default
string `'418000000'` — giving `intermediate_freq = 5000` — while the sidecar
records `center_frequency=unknown`; and for every parsed frequency the
intermediate frequency is `min(frequency // 100, 5000) ≤ 5000`. -/
theorem default_frequency_and_cap (info : SubInfo) :
    (dictGet info.headers "frequency" = none →
        intermediateFreq info = some 5000 ∧ metaFrequency info = "unknown") ∧
    (∀ v, intermediateFreq info = some v →
        v = min (Int.fdiv ((pyInt 10 (frequencyString info)).getD 0) 100) 5000 ∧
        v ≤ 5000) := by
  constructor
  · intro h
    constructor
    · unfold intermediateFreq frequencyString
      rw [h]
      decide
    · unfold metaFrequency
      rw [h]
      rfl
  · intro v hv
    unfold intermediateFreq at hv
    cases hpy : pyInt 10 (frequencyString info) with
    | none =>
      rw [hpy] at hv
      exact Option.noConfusion hv
    | some f =>
      rw [hpy] at hv
      have hv2 : min (Int.fdiv f 100) 5000 = v := Option.some.inj hv
      rw [← hv2]
      exact ⟨rfl, min_le_right _ _⟩

/-- C10 witness: a record with no headers at all. -/
theorem default_frequency_and_cap_witness :
    (intermediateFreq ⟨[], []⟩ = some 5000 ∧ metaFrequency ⟨[], []⟩ = "unknown") ∧
    (5000 : ℤ) ≤ 5000 :=
  ⟨(default_frequency_and_cap ⟨[], []⟩).1 (by decide),
   ((default_frequency_and_cap ⟨[], []⟩).2 5000
     ((default_frequency_and_cap ⟨[], []⟩).1 (by decide)).1).2⟩

/-! Section: End-to-end example (C3) -/

/-- The capture file of the worked example. -/
def exampleLines : List String :=
  ["Protocol: RAW", "Frequency: 433920000", "RAW_Data: 100 -200 50"]

/-- Its parsed record. -/
def exampleInfo : SubInfo :=
  ⟨[("protocol", "RAW"), ("frequency", "433920000")], [[100, -200, 50]]⟩

/-- C3: for the RAW example capture at 433.92 MHz with data `100 -200 50`,
the pipeline parses the duration list `[100, -200, 50]`, synthesizes
`[50, 100, 25]` samples per duration (175 in total) at `sampling_rate =
500000`, `intermediate_freq = 5000`, `amplitude = 100`, writes a `.c16`
buffer of exactly 700 bytes and the exact two-line sidecar text. -/
theorem end_to_end_example :
    parse_sub (some exampleLines) = some exampleInfo ∧
    classify exampleInfo = [ChunkVal.int 100, ChunkVal.int (-200), ChunkVal.int 50] ∧
    intermediateFreq exampleInfo = some 5000 ∧
    List.map (fun d => (durations_to_bin_sequence [d] 500000 5000 100).length)
      [(100 : ℤ), -200, 50] = [50, 100, 25] ∧
    (durations_to_bin_sequence [(100 : ℤ), -200, 50] 500000 5000 100).length = 175 ∧
    process_file (some exampleLines) =
      some (sequence_to_16le_buffer
              (durations_to_bin_sequence [(100 : ℤ), -200, 50] 500000 5000 100),
            "sample_rate=500000\ncenter_frequency=433920000") ∧
    (sequence_to_16le_buffer
        (durations_to_bin_sequence [(100 : ℤ), -200, 50] 500000 5000 100)).length = 700 := by
  have h1 : parse_sub (some exampleLines) = some exampleInfo := by decide
  have h2 : classify exampleInfo =
      [ChunkVal.int 100, ChunkVal.int (-200), ChunkVal.int 50] := by decide
  have h3 : intermediateFreq exampleInfo = some 5000 := by decide
  have hlen : (durations_to_bin_sequence [(100 : ℤ), -200, 50] 500000 5000 100).length
      = 175 := by
    simp [durations_to_bin_sequence, us_to_sin_length]
  have hsynth : synthesizeClassified
      [ChunkVal.int 100, ChunkVal.int (-200), ChunkVal.int 50] 500000 5000 100 =
      some (durations_to_bin_sequence [(100 : ℤ), -200, 50] 500000 5000 100) := by
    simp [synthesizeClassified]
  have hmeta : metaFrequency exampleInfo = "433920000" := by decide
  have hstr : generate_meta_string "433920000" 500000 =
      "sample_rate=500000\ncenter_frequency=433920000" := by decide
  refine ⟨h1, h2, h3, ?_, hlen, ?_, ?_⟩
  · simp [durations_to_bin_sequence, us_to_sin_length]
  · simp [process_file, h1, h2, h3, hsynth, hmeta, hstr]
  · rw [sequence_to_16le_buffer_length, hlen]

end SdrConverter
